import Mathlib

/-!
Verification of the namespace-sandbox program (src/namespace-sandbox/namespace-sandbox.c)
against its natural-language specification.  The C functions are shallowly
embedded as executable Lean definitions; external effects (stat, mount,
unshare, writes to /proc files) are modelled by explicit state or result
oracles.  Machine integers stay well inside 2^31 here, so Nat models them.
-/

set_option maxRecDepth 2048

namespace NSSandbox

/-! ## Constants from <sys/mount.h> and <errno.h> (Linux, x86-64) -/

def MS_RDONLY : Nat := 1
def MS_NOSUID : Nat := 2
def MS_NODEV : Nat := 4
def MS_NOEXEC : Nat := 8
def MS_REMOUNT : Nat := 32
def MS_BIND : Nat := 4096
def MS_REC : Nat := 16384

def ENOENT : Nat := 2
def EEXIST : Nat := 17
def EINVAL : Nat := 22
def ENOTDIR : Nat := 20

/-! ## Mount table and GetMountFlags

`/proc/self/mounts` is modelled as the ordered list of its entries.  Each
entry keeps the fields GetMountFlags reads: the mount point `mnt_dir` and the
comma-separated option list `mnt_opts`, the latter as the list of its tokens.
`hasmntopt` (glibc) matches a token that is the option name exactly or the
option name followed by `=value`. -/

structure MntEnt where
  mnt_dir : String
  mnt_opts : List String
deriving DecidableEq, Repr

def hasmntopt (e : MntEnt) (opt : String) : Bool :=
  e.mnt_opts.any (fun t => t = opt ∨ (opt ++ "=").isPrefixOf t)

/-- Flags contributed by one mount entry, as in the body of GetMountFlags:
nodev → MS_NODEV, nosuid → MS_NOSUID, noexec → MS_NOEXEC. -/
def entryFlags (e : MntEnt) : Nat :=
  (if hasmntopt e "nodev" then MS_NODEV else 0) |||
  (if hasmntopt e "nosuid" then MS_NOSUID else 0) |||
  (if hasmntopt e "noexec" then MS_NOEXEC else 0)

/-- Embedding of GetMountFlags (namespace-sandbox.c:488-521).  The C loop
reads entries in order and `break`s at the first whose `mnt_dir` equals
`path`; if the loop runs off the end, `entry` is NULL and the result stays 0. -/
def GetMountFlags (mtab : List MntEnt) (path : String) : Nat :=
  match mtab.find? (fun e => e.mnt_dir = path) with
  | some e => entryFlags e
  | none => 0

/-- What the claim (and spec §4.5.2) says: the LAST matching entry wins. -/
def specLastMatchFlags (mtab : List MntEnt) (path : String) : Nat :=
  match (mtab.filter (fun e => e.mnt_dir = path)).getLast? with
  | some e => entryFlags e
  | none => 0

/-! ## CreateNamespaces (namespace-sandbox.c:381-411)

The unshare result at each attempt is an oracle `res : Nat → Except Nat Unit`
(`.ok ()` = unshare returned 0, `.error e` = failed with errno e).  The model
returns the outcome together with the list of delays passed to usleep, in
order.  The C loop is `delay = 1; tries = 0; while (tries++ < 100) { if
(unshare(..) == 0) return; if (errno != EINVAL) exit; usleep(delay); if
(delay < 250000) delay *= 2; }` followed by a fatal message. -/

inductive CNOut where
  | success (attempts : Nat)
  | fatalErrno (e : Nat)
  | fatalExhausted
deriving DecidableEq, Repr

def cnGo (res : Nat → Except Nat Unit) : Nat → Nat → Nat → CNOut × List Nat
  | _, 0, _ => (.fatalExhausted, [])
  | attempt, r + 1, delay =>
    match res attempt with
    | .ok _ => (.success (attempt + 1), [])
    | .error e =>
      if e ≠ EINVAL then (.fatalErrno e, [])
      else
        let next := cnGo res (attempt + 1) r (if delay < 250000 then delay * 2 else delay)
        (next.1, delay :: next.2)

def CreateNamespaces (res : Nat → Except Nat Unit) : CNOut × List Nat :=
  cnGo res 0 100 1

/-- The delay actually slept before retry i (0-indexed): powers of two, with
the doubling stopping once the value is at least 250000, i.e. at 262144. -/
def cappedDelay (i : Nat) : Nat := min (2 ^ i) 262144

/-! ## Mount-entry assembly (namespace-sandbox.c:152-187, 293-323, 362)

The dynamic-array bookkeeping (realloc/memset) has no semantic content; the
parse state is the pending source `mount_sources[num_mounts]` (NULL = none)
and the list of completed entries.  `none` models the fatal Usage exit. -/

structure MountEntry where
  source : String
  target : String
  rw : Bool
deriving DecidableEq, Repr

structure MState where
  pending : Option String
  entries : List MountEntry
deriving DecidableEq, Repr

/-- AddMountSource: flush a pending source as `{S, S, ro}`, then record the
new source (if any) as pending. -/
def AddMountSource (src : Option String) (st : MState) : MState :=
  let st1 : MState :=
    match st.pending with
    | some p => ⟨none, st.entries ++ [⟨p, p, false⟩]⟩
    | none => st
  match src with
  | some s => ⟨some s, st1.entries⟩
  | none => st1

inductive MountOpt where
  | M (s : String)
  | m (t : String)
  | w (t : String)
deriving DecidableEq, Repr

/-- One mount-related getopt case of ParseCommandLine.  `-m`/`-w` with no
pending source call Usage (modelled `none`); otherwise they complete the
pending entry with the given target and rw bit. -/
def mountStep (st : MState) : MountOpt → Option MState
  | .M s => some (AddMountSource (some s) st)
  | .m t =>
    match st.pending with
    | none => none
    | some p => some ⟨none, st.entries ++ [⟨p, t, false⟩]⟩
  | .w t =>
    match st.pending with
    | none => none
    | some p => some ⟨none, st.entries ++ [⟨p, t, true⟩]⟩

def runMountOpts (st : MState) : List MountOpt → Option MState
  | [] => some st
  | o :: os =>
    match mountStep st o with
    | none => none
    | some st' => runMountOpts st' os

/-- The mount entries produced by a parse: run the getopt loop's mount cases,
then the trailing `AddMountSource(NULL, opt)` of line 362. -/
def parseMounts (opts : List MountOpt) : Option (List MountEntry) :=
  (runMountOpts ⟨none, []⟩ opts).map (fun st => (AddMountSource none st).entries)

/-- The spec's two-state machine (§4.9), transcribed from its words. -/
inductive SpecMState where
  | Empty
  | SourcePending (s : String)
deriving DecidableEq, Repr

def specMountStep : SpecMState × List MountEntry → MountOpt →
    Option (SpecMState × List MountEntry)
  | (.Empty, es), .M s => some (.SourcePending s, es)
  | (.SourcePending p, es), .M s => some (.SourcePending s, es ++ [⟨p, p, false⟩])
  | (.SourcePending p, es), .m t => some (.Empty, es ++ [⟨p, t, false⟩])
  | (.SourcePending p, es), .w t => some (.Empty, es ++ [⟨p, t, true⟩])
  | (.Empty, _), .m _ => none
  | (.Empty, _), .w _ => none

def specRunMountOpts (st : SpecMState × List MountEntry) :
    List MountOpt → Option (SpecMState × List MountEntry)
  | [] => some st
  | o :: os =>
    match specMountStep st o with
    | none => none
    | some st' => specRunMountOpts st' os

def specParseMounts (opts : List MountOpt) : Option (List MountEntry) :=
  (specRunMountOpts (.Empty, []) opts).map (fun st =>
    match st.1 with
    | .Empty => st.2
    | .SourcePending p => st.2 ++ [⟨p, p, false⟩])

/-- Abstraction from the code's parse state to the spec's machine state. -/
def absM (st : MState) : SpecMState × List MountEntry :=
  (match st.pending with
   | none => .Empty
   | some p => .SourcePending p, st.entries)

/-! ## SetupUserNamespace (namespace-sandbox.c:622-659)

The identity mapper issues file writes (via WriteFile) and setresuid/setresgid
calls.  Results come from an oracle; the model returns the trace of operations
actually issued, in order, and whether the function exited fatally.  WriteFile
returns -1 with an errno on failure; CHECK_CALL dies on -1. -/

inductive IdOp where
  | writeOp (path content : String)
  | setresuidOp (r e s : Nat)
  | setresgidOp (r e s : Nat)
deriving DecidableEq, Repr

structure IdOracle where
  setgroupsRes : Except Nat Unit
  uidMapOk : Bool
  gidMapOk : Bool
  setresuidOk : Bool
  setresgidOk : Bool

def uidMapLine (inner outer : Nat) : String :=
  toString inner ++ " " ++ toString outer ++ " 1\n"

def SetupUserNamespace (orc : IdOracle) (uid gid new_uid new_gid : Nat) :
    List IdOp × Bool :=
  let op1 := IdOp.writeOp "/proc/self/setgroups" "deny"
  let fatal1 :=
    match orc.setgroupsRes with
    | .ok _ => false
    | .error e => decide (e ≠ ENOENT)
  if fatal1 then ([op1], true)
  else
    let op2 := IdOp.writeOp "/proc/self/uid_map" (uidMapLine new_uid uid)
    if ¬orc.uidMapOk then ([op1, op2], true)
    else
      let op3 := IdOp.writeOp "/proc/self/gid_map" (uidMapLine new_gid gid)
      if ¬orc.gidMapOk then ([op1, op2, op3], true)
      else
        let op4 := IdOp.setresuidOp new_uid new_uid new_uid
        if ¬orc.setresuidOk then ([op1, op2, op3, op4], true)
        else
          let op5 := IdOp.setresgidOp new_gid new_gid new_gid
          if ¬orc.setresgidOk then ([op1, op2, op3, op4, op5], true)
          else ([op1, op2, op3, op4, op5], false)

/-! ## Filesystem model and CreateTarget (namespace-sandbox.c:413-418, 442-486)

The filesystem is an association list from path strings to nodes (first match
wins on lookup); stat is lookup, mkdir/open-O_CREAT prepend an entry.  Only
ENOENT stat failures arise in this model (no permission errors), which is the
case the code's recursion distinguishes.  The recursion of CreateTarget is
bounded by fuel (`none` = fuel ran out; the C code would loop on the same
inputs, e.g. when the working directory "." does not stat). -/

inductive FNode where
  | dir (mode : Nat)
  | file (mode : Nat)
deriving DecidableEq, Repr

def FNode.isDir : FNode → Bool
  | .dir _ => true
  | .file _ => false

def FNode.isReg : FNode → Bool
  | .dir _ => false
  | .file _ => true

def FS := List (String × FNode)

instance : DecidableEq FS := inferInstanceAs (DecidableEq (List (String × FNode)))

def statFS (fs : FS) (p : String) : Option FNode :=
  (fs.find? (fun e => e.1 = p)).map (fun e => e.2)

/-! ### dirname (glibc, as declared by <libgen.h>)

Returns the directory part of a path: the input up to (not including) the
last slash run that separates the final component, with the POSIX special
cases for "/", "//", trailing slashes, and slash-free inputs ("."). -/

def lastIdxOf (c : Char) (l : List Char) : Option Nat :=
  l.enum.foldl (fun acc p => if p.2 = c then some p.1 else acc) none

/-- First index of the maximal run of slashes ending at index i (scan
backwards while the preceding character is a slash). -/
def slashRunStart (p : List Char) : Nat → Nat
  | 0 => 0
  | j + 1 => if p.getD j ' ' = '/' then slashRunStart p j else j + 1

def dirnameChars (p : List Char) : List Char :=
  let ls : Option Nat :=
    match lastIdxOf '/' p with
    | none => none
    | some i =>
      if i ≠ 0 ∧ i + 1 = p.length then
        let r := slashRunStart p i
        if r ≠ 0 then lastIdxOf '/' (p.take r) else some i
      else some i
  match ls with
  | none => ['.']
  | some i =>
    let r := slashRunStart p i
    if r = 0 then
      if i = 1 then p.take 2 else p.take 1
    else p.take r

def dirname (s : String) : String := String.mk (dirnameChars s.data)

/-! ### CreateTarget -/

inductive CTRes where
  | ok
  | errE (e : Nat)
  | fatal
deriving DecidableEq, Repr

/-- Whether an existing node satisfies the request, per lines 457-462. -/
def kindMatches (n : FNode) (isDir : Bool) : Bool :=
  (isDir && n.isDir) || (!isDir && n.isReg)

/-- CreateTarget on a non-NULL path.  An empty path is replaced by ".".
If stat succeeds the kind is checked; if stat fails (ENOENT) the parent
`dirname p` is created recursively as a directory — under CHECK_CALL, so a
failure there is a fatal exit — and then the node itself is created:
mkdir(path, 0755) or open(path, O_CREAT|O_WRONLY|O_EXCL, 0666)+close. -/
def createTargetGo (fuel : Nat) (fs : FS) (path : String) (isDir : Bool) :
    Option (CTRes × FS) :=
  match fuel with
  | 0 => none
  | fuel + 1 =>
    let p := if path = "" then "." else path
    match statFS fs p with
    | some n =>
      if kindMatches n isDir then some (.ok, fs)
      else some (.errE (if isDir then ENOTDIR else EEXIST), fs)
    | none =>
      match createTargetGo fuel fs (dirname p) true with
      | none => none
      | some (.ok, fs') =>
        some (.ok, (p, if isDir then FNode.dir 0o755 else FNode.file 0o666) :: fs')
      | some (_, fs') => some (.fatal, fs')

/-- CreateTarget, including the NULL-path guard of lines 445-448. -/
def CreateTarget (fuel : Nat) (fs : FS) (path : Option String) (isDir : Bool) :
    Option (CTRes × FS) :=
  match path with
  | none => some (.errE EINVAL, fs)
  | some p => createTargetGo fuel fs p isDir

/-! ## The user-mount loop of SetupDirectories (namespace-sandbox.c:542-585)

Per entry: create the target under the sandbox root, recursive bind mount
(both under CHECK_CALL; the claims condition on the bind succeeding, so the
model takes the successful path for them), then — for read-only entries
only — one remount with the inherited flags ORed in; a failed remount only
prints a warning and the loop continues.  `remountOk i` tells whether the
remount of entry i succeeds; `srcIsDir i` is S_ISDIR of the entry's source;
`flags` is the inherited-flag function (GetMountFlags on the live table). -/

inductive MntOp where
  | createOp (path : String) (isDir : Bool)
  | bindMount (src tgt : String) (flags : Nat)
  | remount (src tgt : String) (flags : Nat)
  | warnRemount (tgt : String)
deriving DecidableEq, Repr

def MntOp.isRemount : MntOp → Bool
  | .remount _ _ _ => true
  | _ => false

def mountOneOps (root : String) (flags : String → Nat) (remountOk : Bool)
    (srcIsDir : Bool) (e : MountEntry) : List MntOp :=
  let full := root ++ e.target
  [MntOp.createOp full srcIsDir,
   MntOp.bindMount e.source full (MS_REC ||| MS_BIND)] ++
  (if e.rw then []
   else
     [MntOp.remount e.source full
        (flags full ||| MS_REC ||| MS_BIND ||| MS_REMOUNT ||| MS_RDONLY)] ++
     (if remountOk then [] else [MntOp.warnRemount full]))

def mountLoopOps (root : String) (flags : String → Nat) (remountOk : Nat → Bool)
    (srcIsDir : Nat → Bool) : Nat → List MountEntry → List MntOp
  | _, [] => []
  | i, e :: es =>
    mountOneOps root flags (remountOk i) (srcIsDir i) e ++
      mountLoopOps root flags remountOk srcIsDir (i + 1) es

/-! ## ParseOptionsFile and the @FILE loop (namespace-sandbox.c:193-243, 364-370)

ParseOptionsFile reads the file with fgets: each newline ends an argument
(newline stripped), a final fragment without a newline is still an argument,
and the vector starts with an empty program-name slot sub_argv[0] = "".
The `length == 0` guard of line 221 fires only when a line starts with a NUL
byte (fgets otherwise returns at least one character); the model covers
NUL-free content, where every line — including an empty one — is appended. -/

def splitLinesAux : List Char → List Char → List (List Char)
  | acc, [] => if acc.isEmpty then [] else [acc.reverse]
  | acc, c :: cs =>
    if c = '\n' then acc.reverse :: splitLinesAux [] cs
    else splitLinesAux (c :: acc) cs

def splitLines (content : List Char) : List (List Char) :=
  splitLinesAux [] content

/-- The argument vector ParseOptionsFile hands to the recursive
ParseCommandLine: an empty argv[0] slot followed by the file's lines. -/
def ParseOptionsFileArgv (content : List Char) : List String :=
  "" :: (splitLines content).map String.mk

/-- The vector the claim describes for one file: its newline-separated lines
with empty lines skipped. -/
def claimedFileArgs (content : List Char) : List String :=
  ((splitLines content).filter (fun l => ¬l.isEmpty)).map String.mk

/-- Serialize lines into file content, one trailing newline each. -/
def joinLines (lines : List (List Char)) : List Char :=
  lines.flatMap (fun l => l ++ ['\n'])

/-- The trailing @FILE loop of ParseCommandLine (lines 364-370).  `optind` is
the global getopt index; while argv[optind] starts with '@' the code saves
optind, resets it to 0, recursively parses the file's vector, and then sets
optind to the saved value plus one.  The sub-parse's final optind is
discarded by that assignment, so the loop is modelled independently of the
recursive parse's internals: the trace records, per iteration, the saved
index, the index the recursion starts at (always 0), and the vector handed
to the recursive ParseCommandLine. -/
structure AtIter where
  savedOptind : Nat
  recursionOptind : Nat
  subArgv : List String
deriving DecidableEq, Repr

def atLoopGo (fetch : String → List Char) (argv : List String) :
    Nat → Nat → List AtIter × Nat
  | 0, optind => ([], optind)
  | fuel + 1, optind =>
    let a := argv.getD optind ""
    if optind < argv.length ∧ a.take 1 = "@" then
      let sub := ParseOptionsFileArgv (fetch (a.drop 1))
      let rest := atLoopGo fetch argv fuel (optind + 1)
      (⟨optind, 0, sub⟩ :: rest.1, rest.2)
    else ([], optind)

def atLoop (fetch : String → List Char) (argv : List String) (optind : Nat) :
    List AtIter × Nat :=
  atLoopGo fetch argv argv.length optind

/-- First-match semantics for the inherited-flag lookup, stated over the
filtered table; GetMountFlags is proved equal to this. -/
def specFirstMatchFlags (mtab : List MntEnt) (path : String) : Nat :=
  match mtab.filter (fun e => e.mnt_dir = path) with
  | [] => 0
  | e :: _ => entryFlags e

/-! ## The -S case of ParseCommandLine (namespace-sandbox.c:258-272)

`if (sandbox_root[strlen(sandbox_root) - 1] == '/') sandbox_root[...] = 0;`
removes exactly the final character when it is a slash.  (For an empty
optarg the C indexes before the buffer — undefined; the model keeps the
string.)  A second -S calls Usage, modelled as `none`. -/

def setSandboxRoot (s : String) : String :=
  match s.data.getLast? with
  | some c => if c = '/' then String.mk s.data.dropLast else s
  | none => s

def sFlagStep (current : Option String) (arg : String) : Option (Option String) :=
  match current with
  | none => some (some (setSandboxRoot arg))
  | some _ => none

/-! # Theorems -/

/-- find? returns the head of the filtered list. -/
lemma find?_eq_head?_filter {α : Type} (l : List α) (p : α → Bool) :
    l.find? p = (l.filter p).head? := by
  induction l with
  | nil => rfl
  | cons a t ih =>
    by_cases h : p a
    · rw [List.find?_cons_of_pos _ h, List.filter_cons_of_pos h, List.head?_cons]
    · rw [List.find?_cons_of_neg _ h, List.filter_cons_of_neg h, ih]

/-- C1 (counterexample): with two entries whose mount point is the target
path, GetMountFlags uses the FIRST one (its loop breaks on the first match),
not the last as the claim states: here the first entry has nodev, the last
has no options, and the function returns MS_NODEV, while the claimed
last-entry semantics yield 0. -/
theorem C1_last_entry_counterexample :
    GetMountFlags [⟨"/a", ["nodev"]⟩, ⟨"/a", []⟩] "/a" = MS_NODEV ∧
    specLastMatchFlags [⟨"/a", ["nodev"]⟩, ⟨"/a", []⟩] "/a" = 0 ∧
    MS_NODEV ≠ 0 := ⟨rfl, rfl, by decide⟩

/-- C1 (amended): scanning /proc/self/mounts sequentially, the FIRST entry
whose mount point equals the target path determines the result; the returned
mask contains MS_NODEV, MS_NOSUID, MS_NOEXEC exactly when that entry's
option list has nodev, nosuid, noexec; with no matching entry the result
is zero. -/
theorem C1_first_match_wins (mtab : List MntEnt) (path : String) :
    GetMountFlags mtab path = specFirstMatchFlags mtab path ∧
    ((∀ e ∈ mtab, e.mnt_dir ≠ path) → GetMountFlags mtab path = 0) ∧
    (∀ e, mtab.find? (fun x => x.mnt_dir = path) = some e →
      GetMountFlags mtab path = entryFlags e ∧
      ((GetMountFlags mtab path &&& MS_NODEV = MS_NODEV) ↔ hasmntopt e "nodev" = true) ∧
      ((GetMountFlags mtab path &&& MS_NOSUID = MS_NOSUID) ↔ hasmntopt e "nosuid" = true) ∧
      ((GetMountFlags mtab path &&& MS_NOEXEC = MS_NOEXEC) ↔ hasmntopt e "noexec" = true)) := by
  refine ⟨?_, ?_, ?_⟩
  · rw [GetMountFlags, specFirstMatchFlags, find?_eq_head?_filter]
    cases mtab.filter (fun e => e.mnt_dir = path) <;> simp
  · intro h
    rw [GetMountFlags]
    have : mtab.find? (fun e => e.mnt_dir = path) = none := by
      rw [List.find?_eq_none]
      intro e he
      simp [h e he]
    rw [this]
  · intro e he
    have hflags : GetMountFlags mtab path = entryFlags e := by
      rw [GetMountFlags, he]
    refine ⟨hflags, ?_, ?_, ?_⟩ <;> rw [hflags] <;>
      cases h1 : hasmntopt e "nodev" <;> cases h2 : hasmntopt e "nosuid" <;>
      cases h3 : hasmntopt e "noexec" <;>
      simp [entryFlags, h1, h2, h3, MS_NODEV, MS_NOSUID, MS_NOEXEC] <;> decide

/-- C1 witness: the amended theorem applied at a concrete table. -/
theorem C1_first_match_wins_witness :
    GetMountFlags [⟨"/b", ["rw", "nosuid"]⟩] "/b" = entryFlags ⟨"/b", ["rw", "nosuid"]⟩ ∧
    GetMountFlags [⟨"/b", ["rw", "nosuid"]⟩] "/c" = 0 := by
  constructor
  · exact ((C1_first_match_wins [⟨"/b", ["rw", "nosuid"]⟩] "/b").2.2 _ (by decide)).1
  · exact (C1_first_match_wins [⟨"/b", ["rw", "nosuid"]⟩] "/c").2.1 (by decide)

/-- C10: CreateTarget with a NULL path returns -1 with errno EINVAL and the
filesystem is unchanged. -/
theorem C10_null_path (fuel : Nat) (fs : FS) (isDir : Bool) :
    CreateTarget fuel fs none isDir = some (CTRes.errE EINVAL, fs) := rfl

/-- C9 (counterexample): -S strips only ONE trailing slash, so a value
ending in two slashes is stored still ending in '/', contrary to the claim
that the stored root never ends in '/'. -/
theorem C9_trailing_slash_counterexample :
    setSandboxRoot "/a//" = "/a/" ∧
    ("/a/".data.getLast? = some '/') := by decide

/-- C9 (amended): the stored sandbox root is the -S value with exactly its
final character removed when that character is '/', so a value ending in a
single slash loses it but one ending in several slashes still ends in '/';
a second -S is a fatal usage error (modelled none). -/
theorem C9_sandbox_root (s r a : String) :
    (s.data.getLast? = some '/' → setSandboxRoot s = String.mk s.data.dropLast) ∧
    ((∀ c, s.data.getLast? = some c → c ≠ '/') → setSandboxRoot s = s) ∧
    (sFlagStep none a = some (some (setSandboxRoot a))) ∧
    (sFlagStep (some r) a = none) := by
  refine ⟨?_, ?_, rfl, rfl⟩
  · intro h
    simp [setSandboxRoot, h]
  · intro h
    cases hl : s.data.getLast? with
    | none => simp [setSandboxRoot, hl]
    | some c => simp [setSandboxRoot, hl, h c hl]

/-- C9 witness: concrete applications of both stripping cases and the
duplicate -S error. -/
theorem C9_sandbox_root_witness :
    setSandboxRoot "/b/" = "/b" ∧ setSandboxRoot "/b" = "/b" ∧
    sFlagStep (some "/b") "/c" = none := by
  refine ⟨?_, ?_, (C9_sandbox_root "/b/" "/b" "/c").2.2.2⟩
  · exact ((C9_sandbox_root "/b/" "/b" "/c").1 (by decide)).trans (by decide)
  · exact (C9_sandbox_root "/b" "/b" "/c").2.1 (by decide)

/-- C4: the identity mapper writes "deny" to /proc/self/setgroups (ENOENT
failure tolerated silently, other failures fatal before anything else
happens), then "<inner> <outer> 1\n" to uid_map (fatal on error), then the
gid line to gid_map (fatal on error), then calls setresuid and setresgid
with the inner identity in all three id slots, in that order. -/
theorem C4_identity_mapper (orc : IdOracle) (uid gid nu ng : Nat) :
    ((orc.setgroupsRes = Except.ok () ∨ orc.setgroupsRes = Except.error ENOENT) →
      orc.uidMapOk = true → orc.gidMapOk = true →
      orc.setresuidOk = true → orc.setresgidOk = true →
      SetupUserNamespace orc uid gid nu ng =
        ([IdOp.writeOp "/proc/self/setgroups" "deny",
          IdOp.writeOp "/proc/self/uid_map" (uidMapLine nu uid),
          IdOp.writeOp "/proc/self/gid_map" (uidMapLine ng gid),
          IdOp.setresuidOp nu nu nu,
          IdOp.setresgidOp ng ng ng], false)) ∧
    (∀ e, orc.setgroupsRes = Except.error e → e ≠ ENOENT →
      SetupUserNamespace orc uid gid nu ng =
        ([IdOp.writeOp "/proc/self/setgroups" "deny"], true)) ∧
    ((orc.setgroupsRes = Except.ok () ∨ orc.setgroupsRes = Except.error ENOENT) →
      orc.uidMapOk = false →
      SetupUserNamespace orc uid gid nu ng =
        ([IdOp.writeOp "/proc/self/setgroups" "deny",
          IdOp.writeOp "/proc/self/uid_map" (uidMapLine nu uid)], true)) ∧
    ((orc.setgroupsRes = Except.ok () ∨ orc.setgroupsRes = Except.error ENOENT) →
      orc.uidMapOk = true → orc.gidMapOk = false →
      SetupUserNamespace orc uid gid nu ng =
        ([IdOp.writeOp "/proc/self/setgroups" "deny",
          IdOp.writeOp "/proc/self/uid_map" (uidMapLine nu uid),
          IdOp.writeOp "/proc/self/gid_map" (uidMapLine ng gid)], true)) := by
  refine ⟨?_, ?_, ?_, ?_⟩
  · rintro (h | h) h1 h2 h3 h4 <;> simp [SetupUserNamespace, h, h1, h2, h3, h4]
  · intro e he hne
    simp [SetupUserNamespace, he, hne]
  · rintro (h | h) h1 <;> simp [SetupUserNamespace, h, h1]
  · rintro (h | h) h1 h2 <;> simp [SetupUserNamespace, h, h1, h2]

/-- C4 witness: all writes succeed; the full trace in order, not fatal. -/
theorem C4_identity_mapper_witness :
    SetupUserNamespace ⟨Except.ok (), true, true, true, true⟩ 1000 1000 65534 65534 =
      ([IdOp.writeOp "/proc/self/setgroups" "deny",
        IdOp.writeOp "/proc/self/uid_map" (uidMapLine 65534 1000),
        IdOp.writeOp "/proc/self/gid_map" (uidMapLine 65534 1000),
        IdOp.setresuidOp 65534 65534 65534,
        IdOp.setresgidOp 65534 65534 65534], false) :=
  (C4_identity_mapper ⟨Except.ok (), true, true, true, true⟩ 1000 1000 65534 65534).1
    (Or.inl rfl) rfl rfl rfl rfl

/-- C6: per user mount entry, the loop always continues to the next entry
(the per-entry operations are concatenated, so a failed remount of entry i
is followed by entry i+1's operations and never aborts); a read-only entry
issues exactly one remount, whose flag word is the inherited flags of the
target combined with MS_REC, MS_BIND, MS_REMOUNT and MS_RDONLY, and on
remount failure only a warning is appended; a read-write entry issues no
remount. -/
theorem C6_readonly_remount (root : String) (flags : String → Nat)
    (remountOk srcIsDir : Nat → Bool) (i : Nat) (e : MountEntry)
    (es : List MountEntry) :
    (mountLoopOps root flags remountOk srcIsDir i (e :: es) =
      mountOneOps root flags (remountOk i) (srcIsDir i) e ++
        mountLoopOps root flags remountOk srcIsDir (i + 1) es) ∧
    (e.rw = false →
      (mountOneOps root flags (remountOk i) (srcIsDir i) e).filter MntOp.isRemount =
        [MntOp.remount e.source (root ++ e.target)
          (flags (root ++ e.target) ||| MS_REC ||| MS_BIND ||| MS_REMOUNT ||| MS_RDONLY)]) ∧
    (e.rw = false → remountOk i = false →
      mountOneOps root flags (remountOk i) (srcIsDir i) e =
        [MntOp.createOp (root ++ e.target) (srcIsDir i),
         MntOp.bindMount e.source (root ++ e.target) (MS_REC ||| MS_BIND),
         MntOp.remount e.source (root ++ e.target)
           (flags (root ++ e.target) ||| MS_REC ||| MS_BIND ||| MS_REMOUNT ||| MS_RDONLY),
         MntOp.warnRemount (root ++ e.target)]) ∧
    (e.rw = true →
      (mountOneOps root flags (remountOk i) (srcIsDir i) e).filter MntOp.isRemount = []) := by
  refine ⟨rfl, ?_, ?_, ?_⟩
  · intro hrw
    cases hok : remountOk i <;>
      simp [mountOneOps, hrw, hok, MntOp.isRemount, List.filter]
  · intro hrw hok
    simp [mountOneOps, hrw, hok]
  · intro hrw
    simp [mountOneOps, hrw, MntOp.isRemount, List.filter]

/-- C6 witness: a two-entry list, first read-only with failing remount,
second read-write; the failed remount leaves a warning and the loop reaches
the second entry, which has no remount. -/
theorem C6_readonly_remount_witness :
    (mountLoopOps "/sb" (fun _ => 2) (fun _ => false) (fun _ => true) 0
        [⟨"/bin", "/bin", false⟩, ⟨"/ws", "/work", true⟩] =
      mountOneOps "/sb" (fun _ => 2) false true ⟨"/bin", "/bin", false⟩ ++
        mountLoopOps "/sb" (fun _ => 2) (fun _ => false) (fun _ => true) 1
          [⟨"/ws", "/work", true⟩]) ∧
    ((mountOneOps "/sb" (fun _ => 2) false true ⟨"/bin", "/bin", false⟩).filter
        MntOp.isRemount =
      [MntOp.remount "/bin" "/sb/bin"
        (2 ||| MS_REC ||| MS_BIND ||| MS_REMOUNT ||| MS_RDONLY)]) ∧
    ((mountOneOps "/sb" (fun _ => 2) false true ⟨"/ws", "/work", true⟩).filter
        MntOp.isRemount = []) := by
  have h1 := C6_readonly_remount "/sb" (fun _ => 2) (fun _ => false) (fun _ => true) 0
    ⟨"/bin", "/bin", false⟩ [⟨"/ws", "/work", true⟩]
  have h2 := C6_readonly_remount "/sb" (fun _ => 2) (fun _ => false) (fun _ => true) 0
    ⟨"/ws", "/work", true⟩ []
  exact ⟨h1.1, h1.2.1 rfl, h2.2.2.2 rfl⟩

lemma mountStep_absM (st : MState) (o : MountOpt) :
    (mountStep st o).map absM = specMountStep (absM st) o := by
  obtain ⟨p, es⟩ := st
  cases o <;> cases p <;>
    simp [mountStep, specMountStep, absM, AddMountSource]

lemma runMountOpts_absM (opts : List MountOpt) :
    ∀ st, (runMountOpts st opts).map absM = specRunMountOpts (absM st) opts := by
  induction opts with
  | nil => intro st; rfl
  | cons o os ih =>
    intro st
    cases h : mountStep st o with
    | none =>
      have hs : specMountStep (absM st) o = none := by
        rw [← mountStep_absM, h]; rfl
      simp [runMountOpts, specRunMountOpts, h, hs]
    | some st' =>
      have hs : specMountStep (absM st) o = some (absM st') := by
        rw [← mountStep_absM, h]; rfl
      simp [runMountOpts, specRunMountOpts, h, hs, ih st']

/-- C3: the code's mount-entry assembly (AddMountSource and the -M, -m, -w
getopt cases, with the trailing AddMountSource(NULL)) computes exactly the
spec's two-state machine: Empty + -M S → SourcePending S; SourcePending S +
-M S' emits {S,S,ro}; + -m T emits {S,T,ro}; + -w T emits {S,T,rw}; end of
parse in SourcePending S emits {S,S,ro}; -m or -w in Empty is a usage
error; entries appear in declaration order. -/
theorem C3_mount_state_machine (opts : List MountOpt) :
    parseMounts opts = specParseMounts opts := by
  have h := runMountOpts_absM opts ⟨none, []⟩
  have habs : absM ⟨none, []⟩ = (SpecMState.Empty, []) := rfl
  rw [habs] at h
  rw [parseMounts, specParseMounts, ← h]
  cases hr : runMountOpts ⟨none, []⟩ opts with
  | none => rfl
  | some st =>
    obtain ⟨p, es⟩ := st
    cases p <;> simp [absM, AddMountSource]

lemma statFS_cons_self (fs : FS) (p : String) (n : FNode) :
    statFS ((p, n) :: fs) p = some n := by
  simp [statFS, List.find?]

/-- C5 (counterexample): with the working directory present as a directory,
CreateTarget("", is_directory=false) is treated as "." and FAILS with
EEXIST ("." exists and is not a regular file), contradicting the claim that
an empty path always succeeds. -/
theorem C5_empty_path_counterexample :
    CreateTarget 2 [(".", FNode.dir 0o755)] (some "") false =
      some (CTRes.errE EEXIST, [(".", FNode.dir 0o755)]) ∧
    CTRes.errE EEXIST ≠ CTRes.ok := ⟨rfl, by decide⟩

/-- C5 (amended): an empty path is treated as "." and then follows the
ordinary rules (so it succeeds for a directory request when the working
directory exists, and fails with EEXIST for a file request); an existing
node of the requested kind yields success with the filesystem unchanged; an
existing node of the wrong kind yields -1 with ENOTDIR (directory requested)
or EEXIST (file requested); a missing node is created after recursively
creating its parent directory, as a 0755 directory or a 0666 empty file. -/
theorem C5_create_target (fuel : Nat) (fs : FS) (path : String) (isDir : Bool) :
    (createTargetGo (fuel + 1) fs "" isDir = createTargetGo (fuel + 1) fs "." isDir) ∧
    (∀ n, path ≠ "" → statFS fs path = some n → kindMatches n isDir = true →
      createTargetGo (fuel + 1) fs path isDir = some (CTRes.ok, fs)) ∧
    (∀ n, path ≠ "" → statFS fs path = some n → kindMatches n isDir = false →
      createTargetGo (fuel + 1) fs path isDir =
        some (CTRes.errE (if isDir then ENOTDIR else EEXIST), fs)) ∧
    (∀ fs', path ≠ "" → statFS fs path = none →
      createTargetGo fuel fs (dirname path) true = some (CTRes.ok, fs') →
      createTargetGo (fuel + 1) fs path isDir =
        some (CTRes.ok,
          (path, if isDir then FNode.dir 0o755 else FNode.file 0o666) :: fs')) := by
  refine ⟨rfl, ?_, ?_, ?_⟩
  · intro n hne hstat hk
    simp [createTargetGo, hne, hstat, hk]
  · intro n hne hstat hk
    simp [createTargetGo, hne, hstat, hk]
  · intro fs' hne hstat hrec
    simp [createTargetGo, hne, hstat, hrec]

/-- C5 witness: creating a missing directory "x" under an existing working
directory creates exactly the node with mode 0755. -/
theorem C5_create_target_witness :
    createTargetGo 2 [(".", FNode.dir 0o755)] "x" true =
      some (CTRes.ok, ("x", FNode.dir 0o755) :: [(".", FNode.dir 0o755)]) :=
  (C5_create_target 1 [(".", FNode.dir 0o755)] "x" true).2.2.2
    [(".", FNode.dir 0o755)] (by decide) rfl rfl

/-- After a successful CreateTarget, the (normalized) path stats to a node
of the requested kind. -/
lemma createTargetGo_ok_stat (f : Nat) (fs fs₁ : FS) (p : String) (isDir : Bool)
    (h : createTargetGo f fs p isDir = some (CTRes.ok, fs₁)) :
    ∃ n, statFS fs₁ (if p = "" then "." else p) = some n ∧ kindMatches n isDir = true := by
  cases f with
  | zero => simp [createTargetGo] at h
  | succ f =>
    rw [createTargetGo] at h
    cases hstat : statFS fs (if p = "" then "." else p) with
    | some n =>
      simp only [hstat] at h
      by_cases hk : kindMatches n isDir = true
      · rw [if_pos hk] at h
        simp only [Option.some.injEq, Prod.mk.injEq] at h
        exact ⟨n, h.2 ▸ hstat, hk⟩
      · rw [if_neg hk] at h
        simp at h
    | none =>
      simp only [hstat] at h
      cases hrec : createTargetGo f fs (dirname (if p = "" then "." else p)) true with
      | none => simp only [hrec] at h; exact absurd h (by simp)
      | some res =>
        obtain ⟨r, fs'⟩ := res
        simp only [hrec] at h
        cases r with
        | ok =>
          simp only [Option.some.injEq, Prod.mk.injEq] at h
          refine ⟨if isDir then FNode.dir 0o755 else FNode.file 0o666,
            h.2 ▸ statFS_cons_self _ _ _, ?_⟩
          cases isDir <;> rfl
        | errE e => simp at h
        | fatal => simp at h

/-- C8 (counterexample): when the path exists as a regular file and a
directory is requested, BOTH calls fail with ENOTDIR — "both calls succeed"
does not hold for every pair of identical invocations. -/
theorem C8_both_succeed_counterexample :
    CreateTarget 2 [("a", FNode.file 0o666)] (some "a") true =
      some (CTRes.errE ENOTDIR, [("a", FNode.file 0o666)]) ∧
    CTRes.errE ENOTDIR ≠ CTRes.ok := ⟨rfl, by decide⟩

/-- C8 (amended): if a CreateTarget call succeeds, an immediate second call
with the same path and kind also succeeds and returns the same filesystem —
the second call changes nothing. -/
theorem C8_idempotent (fuel fuel' : Nat) (fs fs₁ : FS) (path : Option String)
    (isDir : Bool) (h : CreateTarget fuel fs path isDir = some (CTRes.ok, fs₁)) :
    CreateTarget (fuel' + 1) fs₁ path isDir = some (CTRes.ok, fs₁) := by
  cases path with
  | none => simp [CreateTarget] at h
  | some p =>
    rw [CreateTarget] at h ⊢
    obtain ⟨n, hstat, hk⟩ := createTargetGo_ok_stat fuel fs fs₁ p isDir h
    rw [createTargetGo]
    simp only [hstat, if_pos hk]

/-- C8 witness: a successful creation followed by a second call that
returns the same filesystem unchanged. -/
theorem C8_idempotent_witness :
    CreateTarget 3 [("x", FNode.dir 0o755), (".", FNode.dir 0o755)] (some "x") true =
      some (CTRes.ok, [("x", FNode.dir 0o755), (".", FNode.dir 0o755)]) :=
  C8_idempotent 2 2 [(".", FNode.dir 0o755)]
    [("x", FNode.dir 0o755), (".", FNode.dir 0o755)] (some "x") true rfl

lemma cappedDelay_step (i : Nat) :
    (if cappedDelay i < 250000 then cappedDelay i * 2 else cappedDelay i) =
      cappedDelay (i + 1) := by
  by_cases h : i ≤ 17
  · have h1 : 2 ^ i ≤ 131072 := by
      calc 2 ^ i ≤ 2 ^ 17 := Nat.pow_le_pow_right (by norm_num) h
        _ = 131072 := by norm_num
    have h2 : cappedDelay i = 2 ^ i := by
      rw [cappedDelay]; exact Nat.min_eq_left (by omega)
    have hp : 2 ^ (i + 1) = 2 ^ i * 2 := Nat.pow_succ 2 i
    have h3 : cappedDelay (i + 1) = 2 ^ (i + 1) := by
      rw [cappedDelay]; exact Nat.min_eq_left (by omega)
    rw [h2, h3, if_pos (by omega), hp]
  · push_neg at h
    have h1 : 262144 ≤ 2 ^ i := by
      calc (262144 : Nat) = 2 ^ 18 := by norm_num
        _ ≤ 2 ^ i := Nat.pow_le_pow_right (by norm_num) (by omega)
    have h2 : cappedDelay i = 262144 := by
      rw [cappedDelay]; exact Nat.min_eq_right h1
    have h3 : cappedDelay (i + 1) = 262144 := by
      rw [cappedDelay]
      refine Nat.min_eq_right ?_
      calc (262144 : Nat) = 2 ^ 18 := by norm_num
        _ ≤ 2 ^ (i + 1) := Nat.pow_le_pow_right (by norm_num) (by omega)
    rw [h2, h3, if_neg (by omega)]

/-- After k consecutive EINVAL failures the retry loop is at attempt a+k
with r-k tries left and the doubled-and-capped delay, having slept the k
capped delays in order. -/
lemma cnGo_skip (res : Nat → Except Nat Unit) :
    ∀ (k a r i : Nat), k ≤ r →
      (∀ j, j < k → res (a + j) = Except.error EINVAL) →
      cnGo res a r (cappedDelay i) =
        ((cnGo res (a + k) (r - k) (cappedDelay (i + k))).1,
          ((List.range k).map (fun j => cappedDelay (i + j))) ++
            (cnGo res (a + k) (r - k) (cappedDelay (i + k))).2) := by
  intro k
  induction k with
  | zero => intro a r i _ _; simp
  | succ k ih =>
    intro a r i hkr hall
    obtain ⟨r', rfl⟩ : ∃ r', r = r' + 1 := ⟨r - 1, by omega⟩
    have h0 : res a = Except.error EINVAL := by simpa using hall 0 (Nat.succ_pos k)
    have hnext := ih (a + 1) r' (i + 1) (by omega)
      (fun j hj => by
        have hh := hall (j + 1) (by omega)
        have : a + 1 + j = a + (j + 1) := by omega
        rw [this]; exact hh)
    simp only [cnGo, h0, cappedDelay_step, ne_eq, not_true_eq_false, if_false,
      ite_false, ite_true]
    rw [hnext]
    have e1 : a + 1 + k = a + (k + 1) := by omega
    have e2 : r' - k = r' + 1 - (k + 1) := by omega
    have e3 : i + 1 + k = i + (k + 1) := by omega
    rw [e1, e2, e3]
    refine Prod.ext rfl ?_
    simp only [List.range_succ_eq_map, List.map_cons, List.map_map, List.cons_append]
    have e4 : i + 0 = i := by omega
    rw [e4]
    have hfun : (fun j => cappedDelay (i + 1 + j)) =
        ((fun j => cappedDelay (i + j)) ∘ Nat.succ) := by
      funext j
      simp only [Function.comp_apply]
      congr 1
      omega
    rw [hfun]

lemma cnGo_sleeps_le (res : Nat → Except Nat Unit) :
    ∀ (r a i : Nat), ∀ d ∈ (cnGo res a r (cappedDelay i)).2, d ≤ 262144 := by
  intro r
  induction r with
  | zero => intro a i d hd; simp [cnGo] at hd
  | succ r ih =>
    intro a i d hd
    cases hres : res a with
    | ok u => simp only [cnGo, hres] at hd; simp at hd
    | error e =>
      by_cases he : e = EINVAL
      · simp only [cnGo, hres, he, cappedDelay_step, ne_eq, not_true_eq_false,
          if_false, ite_false, ite_true, List.mem_cons] at hd
        rcases hd with rfl | hd
        · exact Nat.min_le_right _ _
        · exact ih (a + 1) (i + 1) d hd
      · simp only [cnGo, hres, ne_eq, he, not_false_eq_true, if_true, ite_true] at hd
        simp at hd

/-- C2 (counterexample): with every unshare attempt failing with EINVAL, the
19th sleep (index 18) passed to usleep is 262144 µs — the doubling stops
only once the delay has reached at least 250000, so slept delays do exceed
250 000 µs. -/
theorem C2_delay_ceiling_counterexample :
    (CreateNamespaces (fun _ => Except.error EINVAL)).2.getD 18 0 = 262144 ∧
    250000 < 262144 := ⟨rfl, by norm_num⟩

/-- C2 (amended): the loop retries on EINVAL only (any other errno is fatal
immediately, with no further attempts), returns as soon as an unshare call
succeeds, makes at most 100 attempts before exiting fatally, and sleeps
between attempts with delay min(2^i, 262144) µs: starting at 1 µs, doubling
while below 250 000 µs, hence capped at 262 144 µs (not 250 000 µs). -/
theorem C2_unshare_retry (res : Nat → Except Nat Unit) :
    (∀ k, k < 100 → (∀ j, j < k → res j = Except.error EINVAL) →
      res k = Except.ok () →
      CreateNamespaces res = (CNOut.success (k + 1), (List.range k).map cappedDelay)) ∧
    (∀ k e, k < 100 → (∀ j, j < k → res j = Except.error EINVAL) →
      res k = Except.error e → e ≠ EINVAL →
      CreateNamespaces res = (CNOut.fatalErrno e, (List.range k).map cappedDelay)) ∧
    ((∀ j, j < 100 → res j = Except.error EINVAL) →
      CreateNamespaces res = (CNOut.fatalExhausted, (List.range 100).map cappedDelay)) ∧
    (∀ d ∈ (CreateNamespaces res).2, d ≤ 262144) := by
  have hCN : CreateNamespaces res = cnGo res 0 100 (cappedDelay 0) := rfl
  have hzero : ∀ k, (List.range k).map (fun j => cappedDelay (0 + j)) =
      (List.range k).map cappedDelay := by
    intro k
    congr 1
    funext j
    rw [Nat.zero_add]
  refine ⟨?_, ?_, ?_, ?_⟩
  · intro k hk hall hsucc
    rw [hCN, cnGo_skip res k 0 100 0 (by omega)
      (fun j hj => by rw [Nat.zero_add]; exact hall j hj)]
    obtain ⟨m, hm⟩ : ∃ m, 100 - k = m + 1 := ⟨100 - k - 1, by omega⟩
    rw [hm, Nat.zero_add]
    simp only [cnGo, hsucc]
    rw [hzero k]
    simp
  · intro k e hk hall herr hne
    rw [hCN, cnGo_skip res k 0 100 0 (by omega)
      (fun j hj => by rw [Nat.zero_add]; exact hall j hj)]
    obtain ⟨m, hm⟩ : ∃ m, 100 - k = m + 1 := ⟨100 - k - 1, by omega⟩
    rw [hm, Nat.zero_add]
    simp only [cnGo, herr, ne_eq, hne, not_false_eq_true, if_true, ite_true]
    rw [hzero k]
    simp
  · intro hall
    rw [hCN, cnGo_skip res 100 0 100 0 (by omega)
      (fun j hj => by rw [Nat.zero_add]; exact hall j hj)]
    rw [Nat.zero_add, Nat.sub_self]
    simp only [cnGo]
    rw [hzero 100]
    simp
  · rw [hCN]
    exact cnGo_sleeps_le res 100 0 0

/-- C2 witness: success on the third attempt after two EINVAL failures:
two sleeps of 1 and 2 µs, then a normal return. -/
theorem C2_unshare_retry_witness :
    CreateNamespaces
        (fun j => if j < 2 then Except.error EINVAL else Except.ok ()) =
      (CNOut.success 3, [1, 2]) := by
  have h := (C2_unshare_retry
    (fun j => if j < 2 then Except.error EINVAL else Except.ok ())).1 2
    (by norm_num)
    (fun j hj => by simp [hj])
    (by norm_num)
  simpa [cappedDelay, List.range_succ] using h

lemma splitLinesAux_append (l : List Char) :
    ∀ (acc rest : List Char), '\n' ∉ l →
      splitLinesAux acc (l ++ '\n' :: rest) =
        (acc.reverse ++ l) :: splitLinesAux [] rest := by
  induction l with
  | nil =>
    intro acc rest _
    simp [splitLinesAux]
  | cons c l' ih =>
    intro acc rest h
    have hc : ¬(c = '\n') := fun hh => h (hh ▸ List.mem_cons_self c l')
    have hl' : '\n' ∉ l' := fun hh => h (List.mem_cons_of_mem c hh)
    simp only [List.cons_append, splitLinesAux, if_neg hc]
    show splitLinesAux (c :: acc) (l' ++ '\n' :: rest) = _
    rw [ih (c :: acc) rest hl']
    simp [List.reverse_cons, List.append_assoc]

/-- fgets-splitting round trip: serializing newline-free lines with one
trailing newline each and re-reading them yields exactly those lines,
empty lines included. -/
lemma splitLines_joinLines (lines : List (List Char))
    (h : ∀ l ∈ lines, '\n' ∉ l) : splitLines (joinLines lines) = lines := by
  induction lines with
  | nil => rfl
  | cons l ls ih =>
    have h1 : '\n' ∉ l := h l (List.mem_cons_self l ls)
    have h2 : ∀ x ∈ ls, '\n' ∉ x := fun x hx => h x (List.mem_cons_of_mem l hx)
    have hj : joinLines (l :: ls) = l ++ '\n' :: joinLines ls := by
      simp [joinLines, List.flatMap_cons, List.append_assoc]
    rw [splitLines, hj, splitLinesAux_append l [] (joinLines ls) h1]
    simp [splitLines] at ih
    simp [ih h2]

/-- C7 (counterexample): a file containing an empty line.  The code's
sub-argument vector keeps the empty line as an empty-string argument
(sub_argv = ["", "x", "", "y"]), while the claim's substitution-with-
empty-lines-skipped yields only ["x", "y"]. -/
theorem C7_empty_lines_counterexample :
    ParseOptionsFileArgv ("x\n\ny\n".data) = ["", "x", "", "y"] ∧
    claimedFileArgs ("x\n\ny\n".data) = ["x", "y"] ∧
    (ParseOptionsFileArgv ("x\n\ny\n".data)).drop 1 ≠
      claimedFileArgs ("x\n\ny\n".data) := ⟨rfl, rfl, by decide⟩

/-- If the scan position is at or past the end of argv the @FILE loop stops
immediately, whatever fuel remains. -/
lemma atLoopGo_out_of_range (fetch : String → List Char) (argv : List String)
    (fuel optind : Nat) (h : argv.length ≤ optind) :
    atLoopGo fetch argv fuel optind = ([], optind) := by
  cases fuel with
  | zero => rfl
  | succ f =>
    rw [atLoopGo]
    rw [if_neg]
    intro hc
    omega

lemma atLoopGo_fuel (fetch : String → List Char) (argv : List String) :
    ∀ (fuel fuel' optind : Nat), argv.length - optind ≤ fuel →
      argv.length - optind ≤ fuel' →
      atLoopGo fetch argv fuel optind = atLoopGo fetch argv fuel' optind := by
  intro fuel
  induction fuel with
  | zero =>
    intro fuel' optind h h'
    rw [atLoopGo_out_of_range fetch argv 0 optind (by omega),
      atLoopGo_out_of_range fetch argv fuel' optind (by omega)]
  | succ f ih =>
    intro fuel' optind h h'
    cases fuel' with
    | zero =>
      rw [atLoopGo_out_of_range fetch argv (f + 1) optind (by omega),
        atLoopGo_out_of_range fetch argv 0 optind (by omega)]
    | succ f' =>
      rw [atLoopGo, atLoopGo]
      by_cases hc : optind < argv.length ∧ (argv.getD optind "").take 1 = "@"
      · rw [if_pos hc, if_pos hc, ih f' (optind + 1) (by omega) (by omega)]
      · rw [if_neg hc, if_neg hc]

/-- C7 (amended): the sub-argument vector built for @FILE is an empty
program-name slot followed by ALL of FILE's newline-separated lines in
order — an empty line is kept as an empty-string argument, not skipped;
while the argument at the option index starts with '@' the parser saves the
index, runs the recursive parse on that vector with the index reset to 0,
and resumes at the saved index plus one; the same loop applies to the
sub-vector itself, so an @file line nested inside another @file is expanded
in turn. -/
theorem C7_options_file (fetch : String → List Char) (argv : List String)
    (optind : Nat) (f : String) :
    (∀ lines, (∀ l ∈ lines, '\n' ∉ l) →
      ParseOptionsFileArgv (joinLines lines) = "" :: lines.map String.mk) ∧
    (optind < argv.length → (argv.getD optind "").take 1 = "@" →
      atLoop fetch argv optind =
        (⟨optind, 0, ParseOptionsFileArgv (fetch ((argv.getD optind "").drop 1))⟩ ::
            (atLoop fetch argv (optind + 1)).1,
          (atLoop fetch argv (optind + 1)).2)) ∧
    (¬(optind < argv.length ∧ (argv.getD optind "").take 1 = "@") →
      atLoop fetch argv optind = ([], optind)) ∧
    (∀ k, k < (ParseOptionsFileArgv (fetch f)).length →
      ((ParseOptionsFileArgv (fetch f)).getD k "").take 1 = "@" →
      atLoop fetch (ParseOptionsFileArgv (fetch f)) k =
        (⟨k, 0, ParseOptionsFileArgv
              (fetch (((ParseOptionsFileArgv (fetch f)).getD k "").drop 1))⟩ ::
            (atLoop fetch (ParseOptionsFileArgv (fetch f)) (k + 1)).1,
          (atLoop fetch (ParseOptionsFileArgv (fetch f)) (k + 1)).2)) := by
  have hstep : ∀ (av : List String) (oi : Nat), oi < av.length →
      (av.getD oi "").take 1 = "@" →
      atLoop fetch av oi =
        (⟨oi, 0, ParseOptionsFileArgv (fetch ((av.getD oi "").drop 1))⟩ ::
            (atLoop fetch av (oi + 1)).1,
          (atLoop fetch av (oi + 1)).2) := by
    intro av oi h1 h2
    obtain ⟨n, hn⟩ : ∃ n, av.length = n + 1 := ⟨av.length - 1, by omega⟩
    rw [atLoop, hn, atLoopGo, if_pos ⟨by omega, h2⟩]
    have hf := atLoopGo_fuel fetch av n (av.length) (oi + 1)
      (by omega) (by omega)
    rw [hf, atLoop]
  refine ⟨?_, hstep argv optind, ?_, hstep (ParseOptionsFileArgv (fetch f))⟩
  · intro lines hl
    rw [ParseOptionsFileArgv, splitLines_joinLines lines hl]
  · intro hc
    rw [atLoop]
    cases hl : argv.length with
    | zero => rfl
    | succ n =>
      rw [atLoopGo, if_neg hc]

/-- C7 witness: `argv = ["prog", "@f"]` with `f` holding two lines "a", "b":
the loop at index 1 saves it, recurses at index 0 on ["", "a", "b"], and
resumes at index 2 where it stops. -/
theorem C7_options_file_witness :
    atLoop (fun _ => "a\nb\n".data) ["prog", "@f"] 1 =
      ([⟨1, 0, ["", "a", "b"]⟩], 2) := by
  have h := (C7_options_file (fun _ => "a\nb\n".data) ["prog", "@f"] 1 "f").2.1
    (by decide) (by decide)
  have h2 := (C7_options_file (fun _ => "a\nb\n".data) ["prog", "@f"] 2 "f").2.2.1
    (by decide)
  rw [h, h2]
  rfl

end NSSandbox
